import Mathlib

/-!
Verification of the dragonfly per-shard storage core (DbSlice, SliceSnapshot,
ChannelStore) against its natural-language specification.  Each C++ function
named in a claim is shallowly embedded as an executable Lean definition that
mirrors the control flow of the source in `src/server/db_slice.cc`,
`src/server/snapshot.cc` and `src/server/channel_store.cc`; the theorems then
settle the claims about those definitions.
-/

namespace Dragonfly

/-! ## Generic association-list helpers

The dash tables (prime table, expire table) are hash tables with unique keys.
We model a table as an association list; `alookup` is `Find`, `aerase` removes
the binding of a key (keys are unique in a hash table, so erasing every
binding of the key coincides with erasing the found entry), and `aset`
rewrites the value bound to a key in place. -/

def alookup {κ α : Type} [DecidableEq κ] (k : κ) : List (κ × α) → Option α
  | [] => none
  | (k2, v) :: rest => if k2 = k then some v else alookup k rest

def aerase {κ α : Type} [DecidableEq κ] (k : κ) : List (κ × α) → List (κ × α)
  | [] => []
  | (k2, v) :: rest => if k2 = k then aerase k rest else (k2, v) :: aerase k rest

def aset {κ α : Type} [DecidableEq κ] (k : κ) (v : α) : List (κ × α) → List (κ × α)
  | [] => []
  | (k2, v2) :: rest =>
    if k2 = k then (k, v) :: aset k v rest else (k2, v2) :: aset k v rest

theorem alookup_aerase_self {κ α : Type} [DecidableEq κ] (k : κ) (l : List (κ × α)) :
    alookup k (aerase k l) = none := by
  induction l with
  | nil => rfl
  | cons p rest ih =>
    obtain ⟨k2, v2⟩ := p
    by_cases h : k2 = k <;> simp [aerase, alookup, h, ih]

theorem alookup_aerase_ne {κ α : Type} [DecidableEq κ] (k j : κ) (l : List (κ × α))
    (h : j ≠ k) : alookup j (aerase k l) = alookup j l := by
  have h3 : ¬ (k = j) := fun hc => h hc.symm
  induction l with
  | nil => rfl
  | cons p rest ih =>
    obtain ⟨k2, v2⟩ := p
    by_cases h1 : k2 = k
    · have h2 : ¬ (k2 = j) := fun hc => h3 (h1.symm.trans hc)
      simp [aerase, alookup, h1, h2, h3, ih]
    · by_cases h2 : k2 = j <;> simp [aerase, alookup, h1, h2, h, ih]

theorem alookup_aset_self {κ α : Type} [DecidableEq κ] (k : κ) (v : α) (l : List (κ × α)) :
    alookup k (aset k v l) = (alookup k l).map (fun _ => v) := by
  induction l with
  | nil => rfl
  | cons p rest ih =>
    obtain ⟨k2, v2⟩ := p
    by_cases h : k2 = k <;> simp [aset, alookup, h, ih]

theorem alookup_aset_ne {κ α : Type} [DecidableEq κ] (k j : κ) (v : α) (l : List (κ × α))
    (h : j ≠ k) : alookup j (aset k v l) = alookup j l := by
  have h3 : ¬ (k = j) := fun hc => h hc.symm
  induction l with
  | nil => rfl
  | cons p rest ih =>
    obtain ⟨k2, v2⟩ := p
    by_cases h1 : k2 = k
    · have h2 : ¬ (k2 = j) := fun hc => h3 (h1.symm.trans hc)
      simp [aset, alookup, h1, h2, h3, ih]
    · by_cases h2 : k2 = j <;> simp [aset, alookup, h1, h2, h, ih]

/-! ## C1 — snapshot traversal of prime-table buckets

Embedding of `SliceSnapshot::BucketSaveCb` (snapshot.cc:259-287) and
`SliceSnapshot::SerializeBucket` (snapshot.cc:289-307).  A physical bucket is
its monotonic version plus the list of occupied slots.  `BucketSaveCb` skips a
bucket whose version is at least `snapshot_version_` (counting it in
`stats_.skipped`); otherwise it delivers the bucket to older snapshots via
`FlushChangeToEarlierCallbacks` (which never touches this bucket's slots and
only ever bumps other versions below `snapshot_version_`, embedded separately
for C5) and serializes it.  `SerializeBucket` sets the bucket version to
`snapshot_version_` and emits every occupied slot. -/

structure SnapEntry where
  key : Nat
  value : Nat
deriving DecidableEq, Repr

structure Bucket where
  version : Nat
  entries : List SnapEntry
deriving DecidableEq, Repr

/-- Result of one `BucketSaveCb` call: the bucket afterwards, the entries
appended to the serializer, and the increment of `stats_.skipped`. -/
structure SaveResult where
  bucket : Bucket
  serialized : List SnapEntry
  skipped : Nat
deriving DecidableEq, Repr

/-- `SliceSnapshot::SerializeBucket`: under `use_snapshot_version_` the bucket
version is set to `snapshot_version_`, then every occupied slot is serialized. -/
def serializeBucket (useSnapshotVersion : Bool) (snapshotVersion : Nat) (b : Bucket) :
    Bucket × List SnapEntry :=
  (if useSnapshotVersion then { b with version := snapshotVersion } else b, b.entries)

/-- `SliceSnapshot::BucketSaveCb`: skip when `version ≥ snapshot_version_`,
serialize otherwise. -/
def bucketSaveCb (useSnapshotVersion : Bool) (snapshotVersion : Nat) (b : Bucket) :
    SaveResult :=
  if useSnapshotVersion = true ∧ snapshotVersion ≤ b.version then
    { bucket := b, serialized := [], skipped := 1 }
  else
    let res := serializeBucket useSnapshotVersion snapshotVersion b
    { bucket := res.1, serialized := res.2, skipped := 0 }

/-- C1: in a point-in-time snapshot, a bucket with version strictly below
`snapshot_version` has every entry serialized and its version bumped to
`snapshot_version`; a bucket at version ≥ `snapshot_version` is skipped
untouched; consequently a second visit of an already-saved bucket serializes
nothing, so each physical bucket is serialized at most once per snapshot. -/
theorem bucketSaveCb_serializes_once (sv : Nat) (b : Bucket) :
    (b.version < sv →
      (bucketSaveCb true sv b).serialized = b.entries ∧
      (bucketSaveCb true sv b).bucket.version = sv) ∧
    (sv ≤ b.version →
      bucketSaveCb true sv b = { bucket := b, serialized := [], skipped := 1 }) ∧
    (bucketSaveCb true sv (bucketSaveCb true sv b).bucket).serialized = [] := by
  refine ⟨fun hlt => ?_, fun hge => ?_, ?_⟩
  · simp [bucketSaveCb, serializeBucket, Nat.not_le.mpr hlt]
  · simp [bucketSaveCb, hge]
  · by_cases h : sv ≤ b.version
    · simp [bucketSaveCb, h]
    · simp [bucketSaveCb, serializeBucket, h]

/-- Witness for C1 at a concrete bucket: version 3 is below snapshot version 5,
so the single entry is serialized and the bucket ends at version 5. -/
theorem bucketSaveCb_serializes_once_witness :
    (3 : Nat) < 5 ∧
    (bucketSaveCb true 5 ⟨3, [⟨1, 2⟩]⟩).serialized = [⟨1, 2⟩] ∧
    (bucketSaveCb true 5 ⟨3, [⟨1, 2⟩]⟩).bucket.version = 5 :=
  ⟨by decide, (bucketSaveCb_serializes_once 5 ⟨3, [⟨1, 2⟩]⟩).1 (by decide)⟩

/-! ## C5 — flushing a change to earlier callbacks

Embedding of `DbSlice::FlushChangeToEarlierCallbacks` (db_slice.cc:1294-1315).
`change_cb_` is kept ordered by registration version (`RegisterOnChange` tags
each callback with a fresh `NextVersion()`), so we model it as the list of
callback versions in registration order; the function walks it in order,
stops at the first callback whose version equals `upper_bound` (the caller's
own snapshot version — `DCHECK_LE` asserts no version exceeds it) and fires
every callback whose version is above the bucket's current version.  The
result is the list of fired callback versions in visit order. -/

def flushChangeToEarlierCallbacks (bucketVersion upper : Nat) : List Nat → List Nat
  | [] => []
  | v :: rest =>
    if v = upper then []
    else if bucketVersion < v then v :: flushChangeToEarlierCallbacks bucketVersion upper rest
    else flushChangeToEarlierCallbacks bucketVersion upper rest

/-- C5: with the callback list strictly increasing (registration order) and no
version above `upper` (the code's `DCHECK_LE`), the fired callbacks are
exactly those with `bucket_version < version < upper`, in registration
order. -/
theorem flushChange_fires_strictly_between (bv upper : Nat) (cbs : List Nat)
    (hsorted : cbs.Pairwise (· < ·)) (hle : ∀ v ∈ cbs, v ≤ upper) :
    flushChangeToEarlierCallbacks bv upper cbs =
      cbs.filter (fun v => decide (bv < v) && decide (v < upper)) := by
  induction cbs with
  | nil => rfl
  | cons v rest ih =>
    rcases List.pairwise_cons.mp hsorted with ⟨hv, hrest⟩
    by_cases hvu : v = upper
    · subst hvu
      have hnil : rest.filter (fun w => decide (bv < w) && decide (w < v)) = [] :=
        List.filter_eq_nil_iff.mpr (fun w hw => by
          have h1 : ¬ (w < v) := Nat.not_lt.mpr (Nat.le_of_lt (hv w hw))
          simp [h1])
      simp [flushChangeToEarlierCallbacks, List.filter_cons, Nat.lt_irrefl v, hnil]
    · have hvlt : v < upper := Nat.lt_of_le_of_ne (hle v (List.mem_cons_self _ _)) hvu
      have ihr := ih hrest (fun w hw => hle w (List.mem_cons_of_mem _ hw))
      by_cases hbv : bv < v
      · simp [flushChangeToEarlierCallbacks, List.filter_cons, hvu, hbv, hvlt, ihr]
      · simp [flushChangeToEarlierCallbacks, List.filter_cons, hvu, hbv, ihr]

/-- Witness for C5 at a concrete callback list: with bucket version 3 and
upper bound 7, only the callback registered at version 5 fires. -/
theorem flushChange_fires_strictly_between_witness :
    flushChangeToEarlierCallbacks 3 7 [3, 5, 7] =
      List.filter (fun v => decide (3 < v) && decide (v < 7)) [3, 5, 7] :=
  flushChange_fires_strictly_between 3 7 [3, 5, 7] (by decide) (by decide)

/-! ## Shared DbSlice state model (C2, C10)

A database table (`DbTable`) owns a prime table (key to entry; the model
keeps only the metadata the claims need: the *has-expire* bit and the
malloc-used size of key plus value) and an expire table (key to absolute
deadline in ms; the source stores `absolute_ms - expire_base_[0]` with the
base fixed at 0 in the `DbSlice` constructor, so the model stores absolute
deadlines directly).  Shard counters `events_.expired_keys`,
`memory_budget_` and `entries_count_` are carried alongside. -/

structure PrimeEntry where
  hasExpire : Bool
  size : Nat
deriving DecidableEq, Repr

structure DbState where
  prime : List (Nat × PrimeEntry)
  expire : List (Nat × Nat)
  expiredKeys : Nat
  memoryBudget : Int
  entriesCount : Nat
deriving DecidableEq, Repr

/-- `DbSlice::PerformDeletionAtomic` (db_slice.cc:1702-1768): erase the
expire-table entry when the expire iterator is valid, erase the prime-table
entry, decrement `entries_count_` and return the freed bytes to
`memory_budget_`. -/
def performDeletionAtomic (k : Nat) (e : PrimeEntry) (expValid : Bool) (st : DbState) :
    DbState :=
  { st with
    expire := if expValid then aerase k st.expire else st.expire
    prime := aerase k st.prime
    entriesCount := st.entriesCount - 1
    memoryBudget := st.memoryBudget + e.size }

/-- `DbSlice::PerformDeletion` (db_slice.cc:1770-1778): look up the expire
entry when the value has the has-expire bit (`DCHECK(!exp_it.is_done())` —
`none` models a failed check), then delete atomically. -/
def performDeletion (k : Nat) (st : DbState) : Option DbState :=
  match alookup k st.prime with
  | none => none
  | some e =>
    if e.hasExpire then
      match alookup k st.expire with
      | none => none
      | some _ => some (performDeletionAtomic k e true st)
    else some (performDeletionAtomic k e false st)

/-- `DbSlice::AddExpire` (db_slice.cc:935-942): insert the deadline into the
expire table (`CHECK` that the key was absent — `none` models a failed
check) and set the has-expire bit on the prime entry.  The caller holds a
valid prime iterator, modelled by requiring the key to be present. -/
def addExpire (k deadline : Nat) (st : DbState) : Option DbState :=
  match alookup k st.prime with
  | none => none
  | some e =>
    match alookup k st.expire with
    | some _ => none
    | none =>
      some { st with
        expire := (k, deadline) :: st.expire
        prime := aset k { e with hasExpire := true } st.prime }

/-- `DbSlice::RemoveExpire` (db_slice.cc:944-954): if the has-expire bit is
set, erase the expire entry (`CHECK_EQ(1u, ...)` — `none` models a failed
check) and clear the bit; otherwise do nothing. -/
def removeExpire (k : Nat) (st : DbState) : Option DbState :=
  match alookup k st.prime with
  | none => none
  | some e =>
    if e.hasExpire then
      match alookup k st.expire with
      | none => none
      | some _ =>
        some { st with
          expire := aerase k st.expire
          prime := aset k { e with hasExpire := false } st.prime }
    else some st

/-- `bool DbSlice::UpdateExpire(DbIndex, Iterator, uint64_t)`
(db_slice.cc:957-968): deadline 0 removes the expire entry; a non-zero
deadline on an entry without the has-expire bit adds one; otherwise no
change. -/
def updateExpireAt (k deadline : Nat) (st : DbState) : Option DbState :=
  if deadline = 0 then removeExpire k st
  else
    match alookup k st.prime with
    | none => none
    | some e => if e.hasExpire = false then addExpire k deadline st else some st

inductive ExpireResult where
  | invalidCall
  | untouched
  | removed
deriving DecidableEq, Repr

/-- `DbSlice::ExpireIfNeeded` (db_slice.cc:1205-1254).  The `invalidCall`
results model the two `LOG(DFATAL)` paths (no has-expire bit, or expire
entry missing), which return without mutating anything.  An entry whose
deadline has not passed, or examined on a replica, with expiry disabled, or
while the shard-wide intent lock is not free for exclusive use, is returned
untouched; otherwise it is deleted and `events_.expired_keys` is bumped. -/
def expireIfNeeded (nowMs : Nat) (isReplica expireAllowed lockFreeExclusive : Bool)
    (k : Nat) (st : DbState) : DbState × ExpireResult :=
  match alookup k st.prime with
  | none => (st, .invalidCall)
  | some e =>
    if e.hasExpire = false then (st, .invalidCall)
    else
      match alookup k st.expire with
      | none => (st, .invalidCall)
      | some expireTime =>
        if nowMs < expireTime ∨ isReplica = true ∨ expireAllowed = false ∨
            lockFreeExclusive = false then
          (st, .untouched)
        else
          let st2 := performDeletionAtomic k e true st
          ({ st2 with expiredKeys := st2.expiredKeys + 1 }, .removed)

/-! ## C2 — the expire table mirrors the has-expire bit -/

/-- The C2 invariant: a key has an expire-table entry iff it is present in
the prime table with the has-expire bit set. -/
def expireInvariant (st : DbState) : Prop :=
  ∀ k, (alookup k st.expire).isSome = true ↔
    (∃ e, alookup k st.prime = some e ∧ e.hasExpire = true)

/-- The operations claim C2 quantifies over. -/
inductive DbOp where
  | addExpire (k deadline : Nat)
  | removeExpire (k : Nat)
  | updateExpireAt (k deadline : Nat)
  | del (k : Nat)
  | expiry (k nowMs : Nat) (isReplica expireAllowed lockFreeExclusive : Bool)
deriving DecidableEq, Repr

def dbStep : DbOp → DbState → Option DbState
  | .addExpire k d, st => addExpire k d st
  | .removeExpire k, st => removeExpire k st
  | .updateExpireAt k d, st => updateExpireAt k d st
  | .del k, st => performDeletion k st
  | .expiry k now r a lf, st => some (expireIfNeeded now r a lf k st).1

def runDbOps (ops : List DbOp) (st : DbState) : Option DbState :=
  ops.foldlM (fun s op => dbStep op s) st

theorem addExpire_preserves (k d : Nat) (st st2 : DbState)
    (h : addExpire k d st = some st2) (hinv : expireInvariant st) :
    expireInvariant st2 := by
  unfold addExpire at h
  split at h
  · exact absurd h (by simp)
  · rename_i e hp
    split at h
    · exact absurd h (by simp)
    · injection h with h
      subst h
      intro j
      by_cases hj : j = k
      · subst hj
        simp only [alookup, if_pos rfl, Option.isSome_some, alookup_aset_self, hp,
          Option.map_some]
        constructor
        · intro _; exact ⟨{ e with hasExpire := true }, rfl, rfl⟩
        · intro _; rfl
      · have hkj : ¬ (k = j) := fun hc => hj hc.symm
        simp only [alookup, if_neg hkj, alookup_aset_ne k j _ st.prime hj]
        exact hinv j

theorem removeExpire_preserves (k : Nat) (st st2 : DbState)
    (h : removeExpire k st = some st2) (hinv : expireInvariant st) :
    expireInvariant st2 := by
  unfold removeExpire at h
  split at h
  · exact absurd h (by simp)
  · rename_i e hp
    split at h
    · split at h
      · exact absurd h (by simp)
      · injection h with h
        subst h
        intro j
        by_cases hj : j = k
        · subst hj
          simp only [alookup_aerase_self, Option.isSome_none, alookup_aset_self, hp,
            Option.map_some]
          constructor
          · intro hc; exact absurd hc (by simp)
          · rintro ⟨e2, he2, hx2⟩
            injection he2 with he2
            rw [← he2] at hx2
            exact absurd hx2 (by simp)
        · simp only [alookup_aerase_ne k j _ hj, alookup_aset_ne k j _ st.prime hj]
          exact hinv j
    · injection h with h
      subst h
      exact hinv

theorem performDeletion_preserves (k : Nat) (st st2 : DbState)
    (h : performDeletion k st = some st2) (hinv : expireInvariant st) :
    expireInvariant st2 := by
  unfold performDeletion at h
  split at h
  · exact absurd h (by simp)
  · rename_i e hp
    split at h
    · split at h
      · exact absurd h (by simp)
      · injection h with h
        subst h
        intro j
        by_cases hj : j = k
        · subst hj
          simp [performDeletionAtomic, alookup_aerase_self]
        · simp only [performDeletionAtomic, if_true, alookup_aerase_ne k j _ hj]
          exact hinv j
    · rename_i he
      injection h with h
      subst h
      intro j
      by_cases hj : j = k
      · subst hj
        simp only [performDeletionAtomic, alookup_aerase_self]
        constructor
        · intro hs
          rcases (hinv j).mp hs with ⟨e2, he2, hx2⟩
          rw [hp] at he2
          injection he2 with he2
          rw [← he2] at hx2
          exact absurd hx2 he
        · rintro ⟨e2, he2, -⟩
          exact absurd he2 (by simp)
      · simp only [performDeletionAtomic, alookup_aerase_ne k j _ hj]
        exact hinv j

theorem updateExpireAt_preserves (k d : Nat) (st st2 : DbState)
    (h : updateExpireAt k d st = some st2) (hinv : expireInvariant st) :
    expireInvariant st2 := by
  unfold updateExpireAt at h
  split at h
  · exact removeExpire_preserves k st st2 h hinv
  · split at h
    · exact absurd h (by simp)
    · split at h
      · exact addExpire_preserves k d st st2 h hinv
      · injection h with h
        subst h
        exact hinv

theorem expireIfNeeded_preserves (nowMs : Nat) (r a lf : Bool) (k : Nat) (st : DbState)
    (hinv : expireInvariant st) :
    expireInvariant (expireIfNeeded nowMs r a lf k st).1 := by
  rcases hE : expireIfNeeded nowMs r a lf k st with ⟨stR, res⟩
  unfold expireIfNeeded at hE
  split at hE
  · injection hE with h1 h2; rw [← h1]; exact hinv
  · rename_i e hp
    split at hE
    · injection hE with h1 h2; rw [← h1]; exact hinv
    · split at hE
      · injection hE with h1 h2; rw [← h1]; exact hinv
      · split at hE
        · injection hE with h1 h2; rw [← h1]; exact hinv
        · injection hE with h1 h2
          rw [← h1]
          intro j
          by_cases hj : j = k
          · subst hj
            simp [performDeletionAtomic, alookup_aerase_self]
          · simp only [performDeletionAtomic, if_true, alookup_aerase_ne k j _ hj]
            exact hinv j

theorem dbStep_preserves (op : DbOp) (st st2 : DbState)
    (h : dbStep op st = some st2) (hinv : expireInvariant st) :
    expireInvariant st2 := by
  cases op with
  | addExpire k d => exact addExpire_preserves k d st st2 h hinv
  | removeExpire k => exact removeExpire_preserves k st st2 h hinv
  | updateExpireAt k d => exact updateExpireAt_preserves k d st st2 h hinv
  | del k => exact performDeletion_preserves k st st2 h hinv
  | expiry k now r a lf =>
    injection h with h
    rw [← h]
    exact expireIfNeeded_preserves now r a lf k st hinv

/-- C2: after any sequence of add-expire, remove-expire, update-expire,
delete and expiry operations, a key has an entry in the expire table iff it
is present in the prime table with its has-expire bit set. -/
theorem expire_table_matches_prime (ops : List DbOp) (st st2 : DbState)
    (hinv : expireInvariant st) (h : runDbOps ops st = some st2) :
    expireInvariant st2 := by
  induction ops generalizing st with
  | nil =>
    unfold runDbOps at h
    simp only [List.foldlM] at h
    injection h with h
    rw [← h]
    exact hinv
  | cons op ops ih =>
    unfold runDbOps at h
    rw [List.foldlM_cons] at h
    cases hstep : dbStep op st with
    | none => rw [hstep] at h; exact absurd h (by simp)
    | some st1 =>
      rw [hstep] at h
      exact ih st1 (dbStep_preserves op st st1 hstep hinv) h

/-- Start state for the C2 witness run: one key without expiry. -/
def c2StartState : DbState :=
  { prime := [(1, { hasExpire := false, size := 3 })], expire := [],
    expiredKeys := 0, memoryBudget := 0, entriesCount := 1 }

/-- End state of the C2 witness run. -/
def c2EndState : DbState :=
  { prime := [], expire := [], expiredKeys := 1, memoryBudget := 3, entriesCount := 0 }

theorem c2StartState_invariant : expireInvariant c2StartState := by
  intro k
  constructor
  · intro hc
    simp [c2StartState, alookup] at hc
  · rintro ⟨e, he, hx⟩
    simp only [c2StartState, alookup] at he
    split at he
    · injection he with he
      rw [← he] at hx
      exact absurd hx (by decide)
    · exact absurd he (by simp)

/-- Witness for C2: a concrete run (add an expiry, then let the key expire)
keeps the invariant. -/
theorem expire_table_matches_prime_witness :
    expireInvariant c2StartState ∧
    runDbOps [DbOp.addExpire 1 10, DbOp.expiry 1 20 false true true] c2StartState =
      some c2EndState ∧
    expireInvariant c2EndState :=
  ⟨c2StartState_invariant, by decide,
    expire_table_matches_prime [DbOp.addExpire 1 10, DbOp.expiry 1 20 false true true]
      c2StartState c2EndState c2StartState_invariant (by decide)⟩

/-! ## C10 — frame condition of `ExpireIfNeeded` -/

/-- C10: for an entry whose deadline has already passed, `ExpireIfNeeded`
leaves the whole database state untouched and returns the (still expired)
iterators whenever the shard is a replica, expiry is disallowed, or the
shard-wide intent lock is not free for exclusive use; only with all three
conditions clear does it delete the entry from both tables, return the freed
bytes to the memory budget and count the expiration. -/
theorem expireIfNeeded_replica_frame (nowMs : Nat) (isReplica expireAllowed lockFree : Bool)
    (k : Nat) (st : DbState) (e : PrimeEntry) (d : Nat)
    (hp : alookup k st.prime = some e) (hx : e.hasExpire = true)
    (hd : alookup k st.expire = some d) (hpassed : d ≤ nowMs) :
    ((isReplica = true ∨ expireAllowed = false ∨ lockFree = false) →
      expireIfNeeded nowMs isReplica expireAllowed lockFree k st =
        (st, ExpireResult.untouched)) ∧
    (isReplica = false → expireAllowed = true → lockFree = true →
      expireIfNeeded nowMs isReplica expireAllowed lockFree k st =
        ({ prime := aerase k st.prime, expire := aerase k st.expire,
           expiredKeys := st.expiredKeys + 1, memoryBudget := st.memoryBudget + e.size,
           entriesCount := st.entriesCount - 1 }, ExpireResult.removed)) := by
  have hnlt : ¬ (nowMs < d) := Nat.not_lt.mpr hpassed
  constructor
  · intro hcond
    have hor : nowMs < d ∨ isReplica = true ∨ expireAllowed = false ∨ lockFree = false :=
      Or.inr hcond
    simp only [expireIfNeeded, hp, hx, hd]
    rw [if_pos hor]
    simp
  · intro h1 h2 h3
    have hor : ¬ (nowMs < d ∨ isReplica = true ∨ expireAllowed = false ∨
        lockFree = false) := by
      rintro (hlt | hr | ha | hl)
      · exact hnlt hlt
      · rw [h1] at hr; exact absurd hr (by decide)
      · rw [h2] at ha; exact absurd ha (by decide)
      · rw [h3] at hl; exact absurd hl (by decide)
    simp only [expireIfNeeded, hp, hx, hd]
    rw [if_neg hor]
    simp [performDeletionAtomic]

/-- Sample database state for the C10 witness: key 7 expired at 100 ms. -/
def c10State : DbState :=
  { prime := [(7, { hasExpire := true, size := 4 })], expire := [(7, 100)],
    expiredKeys := 0, memoryBudget := 0, entriesCount := 1 }

/-- Witness for C10 at a concrete state: on a replica the expired entry is
left untouched; on a primary with expiry allowed and the lock free it is
deleted. -/
theorem expireIfNeeded_replica_frame_witness :
    expireIfNeeded 150 true true true 7 c10State = (c10State, ExpireResult.untouched) ∧
    expireIfNeeded 150 false true true 7 c10State =
      ({ prime := [], expire := [], expiredKeys := 1, memoryBudget := 4,
         entriesCount := 0 }, ExpireResult.removed) :=
  ⟨(expireIfNeeded_replica_frame 150 true true true 7 c10State
      { hasExpire := true, size := 4 } 100 (by decide) (by decide) (by decide)
      (by decide)).1 (Or.inl rfl),
   (expireIfNeeded_replica_frame 150 false true true 7 c10State
      { hasExpire := true, size := 4 } 100 (by decide) (by decide) (by decide)
      (by decide)).2 rfl rfl rfl⟩

/-! ## C3 — store-mode memory rejection in `AddOrFindInternal`

Embedding of the insertion path of `DbSlice::AddOrFindInternal`
(db_slice.cc:641-778) at the granularity the claim observes.  `memoryOffset`
is the `memory_offset` computed at db_slice.cc:670-685 (`-key.size()`, plus
cool-storage memory when tiered storage exists); `tableIncrease` is the
prime-table memory growth subtracted from the budget after `InsertNew`.
`apply_memory_limit` (db_slice.cc:695-696) is false on a replica, or while
the global state is LOADING; only then is the store-mode rejection at
db_slice.cc:699-704 reachable. -/

structure AddState where
  primeKeys : List Nat
  insertionRejections : Nat
  memoryBudget : Int
deriving DecidableEq, Repr

inductive AddStatus where
  | existing
  | outOfMemory
  | inserted
deriving DecidableEq, Repr

def addOrFindInternal (cacheMode isReplica loading : Bool) (memoryOffset tableIncrease : Int)
    (key : Nat) (st : AddState) : AddState × AddStatus :=
  if key ∈ st.primeKeys then (st, AddStatus.existing)
  else
    if (isReplica = false ∧ loading = false) ∧ cacheMode = false ∧
        st.memoryBudget + memoryOffset < 0 then
      ({ st with insertionRejections := st.insertionRejections + 1 }, AddStatus.outOfMemory)
    else
      ({ st with
          primeKeys := key :: st.primeKeys
          memoryBudget := st.memoryBudget - tableIncrease }, AddStatus.inserted)

/-- Claim C3 exactly as stated: in store mode, *every* insertion attempted
while `memory_budget + memory_offset < 0` fails with OUT_OF_MEMORY, bumps
`insertion_rejections` and adds no entry — with no condition on replica or
loading state. -/
def c3ClaimStatement : Prop :=
  ∀ (isReplica loading : Bool) (memoryOffset tableIncrease : Int) (key : Nat) (st : AddState),
    key ∉ st.primeKeys →
    st.memoryBudget + memoryOffset < 0 →
    (addOrFindInternal false isReplica loading memoryOffset tableIncrease key st).2 =
        AddStatus.outOfMemory ∧
    (addOrFindInternal false isReplica loading memoryOffset tableIncrease key
        st).1.insertionRejections = st.insertionRejections + 1 ∧
    (addOrFindInternal false isReplica loading memoryOffset tableIncrease key st).1.primeKeys =
      st.primeKeys

/-- Counterexample to C3 as stated: on a replica (`apply_memory_limit` is
false, db_slice.cc:695-699) a store-mode insertion with a breached budget
still succeeds. -/
theorem addOrFind_store_oom_counterexample : ¬ c3ClaimStatement := fun h =>
  absurd (h true false (-1) 0 7 ⟨[], 0, 0⟩ (by decide) (by decide)).1 (by decide)

/-- C3 amended: in store mode, when memory limits apply (the shard is not a
replica and the server is not loading a snapshot), an insertion attempted
with `memory_budget + memory_offset < 0` fails with OUT_OF_MEMORY, increments
`insertion_rejections`, and adds no entry to the prime table. -/
theorem addOrFind_store_oom (isReplica loading cacheMode : Bool)
    (memoryOffset tableIncrease : Int) (key : Nat) (st : AddState)
    (hnew : key ∉ st.primeKeys) (hr : isReplica = false) (hl : loading = false)
    (hc : cacheMode = false) (hb : st.memoryBudget + memoryOffset < 0) :
    addOrFindInternal cacheMode isReplica loading memoryOffset tableIncrease key st =
      ({ st with insertionRejections := st.insertionRejections + 1 },
        AddStatus.outOfMemory) := by
  unfold addOrFindInternal
  rw [if_neg hnew, if_pos ⟨⟨hr, hl⟩, hc, hb⟩]

/-- Witness for the amended C3 at a concrete state. -/
theorem addOrFind_store_oom_witness :
    (7 : Nat) ∉ ([] : List Nat) ∧
    addOrFindInternal false false false (-1) 0 7
        { primeKeys := [], insertionRejections := 2, memoryBudget := 0 } =
      ({ primeKeys := [], insertionRejections := 3, memoryBudget := 0 },
        AddStatus.outOfMemory) :=
  ⟨by decide,
    addOrFind_store_oom false false false (-1) 0 7
      { primeKeys := [], insertionRejections := 2, memoryBudget := 0 }
      (by decide) rfl rfl rfl (by decide)⟩

/-! ## C4 — incremental expiry sweep

Embedding of `DbSlice::DeleteExpiredStep` (db_slice.cc:1334-1385).  The
expire table is the list of entries in cursor order; one
`ExpireTable::Traverse` call visits the entry at the cursor and advances it
(wrapping to 0 at the end, as `Traverse` does).  The traversal callback
skips — without counting — entries whose key fails
`CheckLock(IntentLock::EXCLUSIVE, ...)` (modelled by `locked`); otherwise it
counts the entry as traversed and either deletes it (deadline passed) or
adds its remaining ttl to `survivor_ttl_sum`.  `calls` instruments the
number of `Traverse` invocations (cursor positions walked), which the code
performs `count/3` times and then — only if `deleted * 4 > traversed` —
until `i < count`, i.e. `count - count/3` more times. -/

structure SweepEntry where
  key : Nat
  locked : Bool
  expireAt : Int
deriving DecidableEq, Repr

structure SweepStats where
  traversed : Nat
  deleted : Nat
  survivorTtlSum : Int
deriving DecidableEq, Repr

structure SweepState where
  table : List SweepEntry
  cursor : Nat
  stats : SweepStats
  calls : Nat
deriving DecidableEq, Repr

def traverseStep (nowMs : Int) (s : SweepState) : SweepState :=
  if hlen : s.table.length = 0 then
    { s with cursor := 0, calls := s.calls + 1 }
  else
    let i := s.cursor % s.table.length
    let e := s.table.get ⟨i, Nat.mod_lt _ (Nat.pos_of_ne_zero hlen)⟩
    if e.locked then
      { s with cursor := if i + 1 < s.table.length then i + 1 else 0, calls := s.calls + 1 }
    else if e.expireAt - nowMs ≤ 0 then
      { table := s.table.eraseIdx i
        cursor := if i < s.table.length - 1 then i else 0
        stats := { traversed := s.stats.traversed + 1, deleted := s.stats.deleted + 1,
                   survivorTtlSum := s.stats.survivorTtlSum }
        calls := s.calls + 1 }
    else
      { s with
        cursor := if i + 1 < s.table.length then i + 1 else 0
        stats := { traversed := s.stats.traversed + 1, deleted := s.stats.deleted,
                   survivorTtlSum := s.stats.survivorTtlSum + (e.expireAt - nowMs) }
        calls := s.calls + 1 }

def runTraverse (nowMs : Int) : Nat → SweepState → SweepState
  | 0, s => s
  | n + 1, s => runTraverse nowMs n (traverseStep nowMs s)

/-- `DbSlice::DeleteExpiredStep`: `count/3` traverse calls, then — only when
`deleted * 4 > traversed` — the loop index continues from `count/3` up to
`count`. -/
def deleteExpiredStep (count : Nat) (nowMs : Int) (s0 : SweepState) : SweepState :=
  let s1 := runTraverse nowMs (count / 3) s0
  if s1.stats.deleted * 4 > s1.stats.traversed then
    runTraverse nowMs (count - count / 3) s1
  else s1

theorem traverseStep_calls (now : Int) (s : SweepState) :
    (traverseStep now s).calls = s.calls + 1 := by
  unfold traverseStep
  split
  · rfl
  · dsimp only
    split
    · rfl
    · split <;> rfl

theorem runTraverse_calls (now : Int) (n : Nat) (s : SweepState) :
    (runTraverse now n s).calls = s.calls + n := by
  induction n generalizing s with
  | zero => rfl
  | succ n ih =>
    rw [runTraverse, ih, traverseStep_calls]
    omega

/-- Claim C4 exactly as stated: walk `count/3` positions; when at least 25%
of the visited entries were deleted (`deleted * 4 ≥ traversed`, with at
least one visit), continue for `count` *more* positions. -/
def c4ClaimStatement (count : Nat) (nowMs : Int) (s0 : SweepState) : Prop :=
  (deleteExpiredStep count nowMs s0).calls =
    s0.calls +
      (if (runTraverse nowMs (count / 3) s0).stats.deleted * 4 ≥
            (runTraverse nowMs (count / 3) s0).stats.traversed ∧
          0 < (runTraverse nowMs (count / 3) s0).stats.traversed
        then count / 3 + count else count / 3)

/-- Concrete expire table for the C4 counterexample: eight unlocked keys, the
first expired, the rest alive at `now = 100`. -/
def c4Table : List SweepEntry :=
  ⟨0, false, 50⟩ :: List.map (fun k => ⟨k, false, 200⟩) [1, 2, 3, 4, 5, 6, 7]

/-- Counterexample to C4 as stated, at `count = 12`: the first phase visits 4
entries and deletes exactly 1 — a deletion rate of exactly 25% — so the
claim predicts continuation (4 + 12 = 16 positions), but the code requires
`deleted * 4 > traversed` (strictly more than 25%) and stops at 4. -/
theorem deleteExpiredStep_counterexample :
    ¬ c4ClaimStatement 12 100 ⟨c4Table, 0, ⟨0, 0, 0⟩, 0⟩ := by
  unfold c4ClaimStatement
  decide

/-- C4 amended: `delete_expired_step(ctx, count)` traverses exactly
`count/3` positions of the expire cursor, skipping (without counting) keys
held under incompatible transaction lock; if strictly more than 25% of the
counted entries were deleted it continues until `count` positions have been
traversed in total (i.e. `count - count/3` more). -/
theorem deleteExpiredStep_phases (count : Nat) (nowMs : Int) (s0 : SweepState) :
    ((deleteExpiredStep count nowMs s0).calls =
      s0.calls +
        (if (runTraverse nowMs (count / 3) s0).stats.deleted * 4 >
            (runTraverse nowMs (count / 3) s0).stats.traversed
          then count else count / 3)) ∧
    (∀ (s : SweepState) (e : SweepEntry),
      s.table.get? (s.cursor % s.table.length) = some e → e.locked = true →
      (traverseStep nowMs s).stats = s.stats) := by
  constructor
  · unfold deleteExpiredStep
    by_cases hcond : (runTraverse nowMs (count / 3) s0).stats.deleted * 4 >
        (runTraverse nowMs (count / 3) s0).stats.traversed
    · rw [if_pos hcond, if_pos hcond, runTraverse_calls, runTraverse_calls]
      have := Nat.div_le_self count 3
      omega
    · rw [if_neg hcond, if_neg hcond, runTraverse_calls]
  · intro s e hget hlock
    have hlen : s.table.length ≠ 0 := by
      intro hn
      rw [List.length_eq_zero.mp hn] at hget
      exact absurd hget (by simp)
    have hidx : s.cursor % s.table.length < s.table.length :=
      Nat.mod_lt _ (Nat.pos_of_ne_zero hlen)
    have hE : s.table.get ⟨s.cursor % s.table.length, hidx⟩ = e := by
      have h2 := List.get?_eq_get hidx
      rw [h2] at hget
      injection hget
    unfold traverseStep
    rw [dif_neg hlen]
    simp only [hE, hlock, if_true]

/-- Witness for the amended C4: a locked entry is skipped without counting,
and a concrete sweep with a 50% first-phase deletion rate continues to
`count` total positions. -/
theorem deleteExpiredStep_phases_witness :
    (traverseStep 100 ⟨[⟨1, true, 0⟩], 0, ⟨0, 0, 0⟩, 0⟩).stats = (⟨0, 0, 0⟩ : SweepStats) :=
  (deleteExpiredStep_phases 12 100 ⟨[], 0, ⟨0, 0, 0⟩, 0⟩).2
    ⟨[⟨1, true, 0⟩], 0, ⟨0, 0, 0⟩, 0⟩ ⟨1, true, 0⟩ (by decide) (by decide)

/-! ## C6 — sticky keys are never evicted

Embeddings of the two cache-mode eviction paths.

`PrimeEvictionPolicy::Evict` (db_slice.cc:202-240) examines the last slot of
a pseudo-randomly chosen stash bucket (modelled as `Option EvictEntry`, none
when the slot is unoccupied): it returns without evicting when runtime
eviction is off or a journal write would block, when the slot holds a sticky
key, or when the key is held by a transaction lock; otherwise it deletes
that one entry.

`DbSlice::FreeMemWithEvictionStepAtomic` (db_slice.cc:1393-1483) — after the
tiered-storage reclaim, absent here — returns nothing unless cache mode is
on and expiry allowed, then walks bucket slots from highest slot id downward
across segments (the walk order is abstracted as the candidate list) and
deletes entries, skipping sticky keys, entries with no heap allocation, and
locked keys, until `max_eviction_per_heartbeat` entries or
`increase_goal_bytes` bytes are reached. -/

structure EvictEntry where
  key : Nat
  sticky : Bool
  locked : Bool
  allocated : Bool
  size : Nat
deriving DecidableEq, Repr

/-- `PrimeEvictionPolicy::Evict`: returns the function result and the list of
entries it deleted. -/
def primeEvictionEvict (canEvict willBlockOnJournalWrite : Bool)
    (lastSlot : Option EvictEntry) : Nat × List EvictEntry :=
  if canEvict = false ∨ willBlockOnJournalWrite = true then (0, [])
  else
    match lastSlot with
    | none => (1, [])
    | some e =>
      if e.sticky then (0, [])
      else if e.locked then (0, [])
      else (1, [e])

structure FreeMemAcc where
  evictedItems : Nat
  evictedBytes : Nat
  evicted : List EvictEntry
  stopped : Bool
deriving DecidableEq, Repr

def freeMemLoop (maxPerHeartbeat goalBytes : Nat) :
    List EvictEntry → FreeMemAcc → FreeMemAcc
  | [], acc => acc
  | e :: rest, acc =>
    if acc.stopped then acc
    else if e.sticky = true ∨ e.allocated = false then
      freeMemLoop maxPerHeartbeat goalBytes rest acc
    else if e.locked then
      freeMemLoop maxPerHeartbeat goalBytes rest acc
    else
      let items := acc.evictedItems + 1
      let bytes := acc.evictedBytes + e.size
      freeMemLoop maxPerHeartbeat goalBytes rest
        { evictedItems := items, evictedBytes := bytes, evicted := acc.evicted ++ [e],
          stopped := items = maxPerHeartbeat ∨ goalBytes ≤ bytes }

def freeMemWithEvictionStepAtomic (cacheMode expireAllowed : Bool)
    (maxPerHeartbeat goalBytes : Nat) (candidates : List EvictEntry) : FreeMemAcc :=
  if cacheMode = false ∨ expireAllowed = false then
    { evictedItems := 0, evictedBytes := 0, evicted := [], stopped := false }
  else
    freeMemLoop maxPerHeartbeat goalBytes candidates
      { evictedItems := 0, evictedBytes := 0, evicted := [], stopped := false }

theorem freeMemLoop_no_sticky (m g : Nat) (cand : List EvictEntry) (acc : FreeMemAcc)
    (hacc : acc.evicted.all (fun e => !e.sticky) = true) :
    (freeMemLoop m g cand acc).evicted.all (fun e => !e.sticky) = true := by
  induction cand generalizing acc with
  | nil => exact hacc
  | cons e rest ih =>
    unfold freeMemLoop
    split
    · exact hacc
    · split
      · exact ih acc hacc
      · split
        · exact ih acc hacc
        · rename_i hsk hlk
          refine ih _ ?_
          have hs : e.sticky = false := by
            rcases Bool.eq_false_or_eq_true e.sticky with h | h
            · exact absurd (Or.inl h) hsk
            · exact h
          simp only [List.all_append, hacc, Bool.and_eq_true, List.all_cons, List.all_nil]
          simp [hs]

/-- C6: neither eviction path ever deletes an entry whose key is sticky —
not the insert-time eviction from a stash bucket, and not the heartbeat
free-memory eviction step. -/
theorem eviction_never_evicts_sticky (canEvict willBlock : Bool)
    (lastSlot : Option EvictEntry) (cacheMode expireAllowed : Bool)
    (maxPerHeartbeat goalBytes : Nat) (candidates : List EvictEntry) :
    (primeEvictionEvict canEvict willBlock lastSlot).2.all (fun e => !e.sticky) = true ∧
    (freeMemWithEvictionStepAtomic cacheMode expireAllowed maxPerHeartbeat goalBytes
        candidates).evicted.all (fun e => !e.sticky) = true := by
  constructor
  · unfold primeEvictionEvict
    split
    · rfl
    · split
      · rfl
      · rename_i e
        by_cases hs : e.sticky
        · rw [if_pos hs]; rfl
        · rw [if_neg hs]
          split
          · rfl
          · simp [List.all_cons, hs]
  · unfold freeMemWithEvictionStepAtomic
    split
    · rfl
    · exact freeMemLoop_no_sticky maxPerHeartbeat goalBytes candidates _ rfl

/-! ## C7 — `UpdateExpire` deadline conditions

Embedding of `DbSlice::ExpireParams::Calculate` (db_slice.cc:1007-1021, with
`cap = false` as `UpdateExpire` passes) and `DbSlice::UpdateExpire`
(db_slice.cc:1023-1062).  `existing` is `ExpireTime(expire_it)` when the
expire iterator is valid.  `kMaxExpireDeadlineMs` is declared in db_slice.h
(not under src/); it is taken as a parameter and every theorem holds for any
value of it. -/

inductive TimeUnit where
  | sec
  | msec
deriving DecidableEq, Repr

structure ExpireParams where
  value : Int
  unit : TimeUnit
  absolute : Bool
  persist : Bool
  nx : Bool
  xx : Bool
  gt : Bool
  lt : Bool
deriving DecidableEq, Repr

def int64Max : Int := 2 ^ 63 - 1

/-- `ExpireParams::Calculate(now_ms, false)`: returns `(rel_msec, abs_msec)`;
seconds that would overflow an int64 when scaled to ms yield `(0, -1)`. -/
def calculateExpire (nowMs : Int) (p : ExpireParams) : Int × Int :=
  if p.persist then (0, 0)
  else if p.unit = TimeUnit.sec ∧ p.value > int64Max / 1000 then (0, -1)
  else
    let msec := if p.unit = TimeUnit.sec then p.value * 1000 else p.value
    let rel := if p.absolute then msec - nowMs else msec
    (rel, nowMs + rel)

inductive UpdateExpireResult where
  | persisted
  | outOfRange
  | keyDeleted
  | skipped
  | applied (absMs : Int)
deriving DecidableEq, Repr

def updateExpire (kMaxExpireDeadlineMs nowMs : Int) (existing : Option Int)
    (p : ExpireParams) : UpdateExpireResult :=
  if p.persist then UpdateExpireResult.persisted
  else if (calculateExpire nowMs p).2 < 0 ∨
      (calculateExpire nowMs p).1 > kMaxExpireDeadlineMs then
    UpdateExpireResult.outOfRange
  else if (calculateExpire nowMs p).1 ≤ 0 then UpdateExpireResult.keyDeleted
  else
    match existing with
    | some current =>
      if p.nx then UpdateExpireResult.skipped
      else if p.lt = true ∧ current ≤ (calculateExpire nowMs p).2 then
        UpdateExpireResult.skipped
      else if p.gt = true ∧ current ≥ (calculateExpire nowMs p).2 then
        UpdateExpireResult.skipped
      else UpdateExpireResult.applied (calculateExpire nowMs p).2
    | none =>
      if p.xx then UpdateExpireResult.skipped
      else UpdateExpireResult.applied (calculateExpire nowMs p).2

/-- C7: a negative computed absolute deadline or a relative deadline above
the maximum is OUT_OF_RANGE; otherwise a non-positive relative deadline
deletes the key; otherwise NX with an existing deadline is SKIPPED, XX with
no existing deadline is SKIPPED, GT updates exactly when the new deadline is
strictly greater than the current one, and LT exactly when strictly smaller
(SKIPPED otherwise). -/
theorem updateExpire_conditions (kMax nowMs : Int) (existing : Option Int)
    (p : ExpireParams) (hper : p.persist = false) :
    (((calculateExpire nowMs p).2 < 0 ∨ (calculateExpire nowMs p).1 > kMax) →
      updateExpire kMax nowMs existing p = UpdateExpireResult.outOfRange) ∧
    (¬ ((calculateExpire nowMs p).2 < 0 ∨ (calculateExpire nowMs p).1 > kMax) →
      (calculateExpire nowMs p).1 ≤ 0 →
      updateExpire kMax nowMs existing p = UpdateExpireResult.keyDeleted) ∧
    (¬ ((calculateExpire nowMs p).2 < 0 ∨ (calculateExpire nowMs p).1 > kMax) →
      0 < (calculateExpire nowMs p).1 → p.nx = true → ∀ c, existing = some c →
      updateExpire kMax nowMs existing p = UpdateExpireResult.skipped) ∧
    (¬ ((calculateExpire nowMs p).2 < 0 ∨ (calculateExpire nowMs p).1 > kMax) →
      0 < (calculateExpire nowMs p).1 → p.xx = true → existing = none →
      updateExpire kMax nowMs existing p = UpdateExpireResult.skipped) ∧
    (¬ ((calculateExpire nowMs p).2 < 0 ∨ (calculateExpire nowMs p).1 > kMax) →
      0 < (calculateExpire nowMs p).1 → p.nx = false → p.lt = false → p.gt = true →
      ∀ c, existing = some c →
      (updateExpire kMax nowMs existing p =
          UpdateExpireResult.applied (calculateExpire nowMs p).2 ↔
        c < (calculateExpire nowMs p).2) ∧
      ((calculateExpire nowMs p).2 ≤ c →
        updateExpire kMax nowMs existing p = UpdateExpireResult.skipped)) ∧
    (¬ ((calculateExpire nowMs p).2 < 0 ∨ (calculateExpire nowMs p).1 > kMax) →
      0 < (calculateExpire nowMs p).1 → p.nx = false → p.gt = false → p.lt = true →
      ∀ c, existing = some c →
      (updateExpire kMax nowMs existing p =
          UpdateExpireResult.applied (calculateExpire nowMs p).2 ↔
        (calculateExpire nowMs p).2 < c) ∧
      (c ≤ (calculateExpire nowMs p).2 →
        updateExpire kMax nowMs existing p = UpdateExpireResult.skipped)) := by
  have hp : ¬ (p.persist = true) := by simp [hper]
  refine ⟨?_, ?_, ?_, ?_, ?_, ?_⟩
  · intro hoor
    unfold updateExpire
    rw [if_neg hp, if_pos hoor]
  · intro hoor hrel
    unfold updateExpire
    rw [if_neg hp, if_neg hoor, if_pos hrel]
  · intro hoor hpos hnx c hex
    unfold updateExpire
    rw [if_neg hp, if_neg hoor, if_neg (Int.not_le.mpr hpos), hex]
    exact if_pos hnx
  · intro hoor hpos hxx hex
    unfold updateExpire
    rw [if_neg hp, if_neg hoor, if_neg (Int.not_le.mpr hpos), hex]
    exact if_pos hxx
  · intro hoor hpos hnx hlt hgt c hex
    unfold updateExpire
    rw [if_neg hp, if_neg hoor, if_neg (Int.not_le.mpr hpos), hex]
    dsimp only
    rw [if_neg (by simp [hnx]), if_neg (by simp [hlt])]
    constructor
    · constructor
      · intro happ
        by_cases hge : c ≥ (calculateExpire nowMs p).2
        · rw [if_pos ⟨hgt, hge⟩] at happ
          exact absurd happ (by simp)
        · exact Int.not_le.mp hge
      · intro hclt
        rw [if_neg (fun hc => absurd hc.2 (Int.not_le.mpr hclt))]
    · intro hge
      rw [if_pos ⟨hgt, hge⟩]
  · intro hoor hpos hnx hgt hlt c hex
    unfold updateExpire
    rw [if_neg hp, if_neg hoor, if_neg (Int.not_le.mpr hpos), hex]
    dsimp only
    rw [if_neg (by simp [hnx])]
    constructor
    · constructor
      · intro happ
        by_cases hle : c ≤ (calculateExpire nowMs p).2
        · rw [if_pos ⟨hlt, hle⟩] at happ
          exact absurd happ (by simp)
        · exact Int.not_le.mp hle
      · intro habs
        rw [if_neg (fun hc => absurd hc.2 (Int.not_le.mpr habs)),
          if_neg (by simp [hgt])]
    · intro hle
      rw [if_pos ⟨hlt, hle⟩]

/-- Witness for C7 at concrete inputs: NX with an existing deadline is
skipped; GT with a strictly larger new deadline is applied; an absolute
deadline in the past is OUT_OF_RANGE. -/
theorem updateExpire_conditions_witness :
    updateExpire 100000000 1000 (some 2000)
        { value := 500, unit := TimeUnit.msec, absolute := false, persist := false,
          nx := true, xx := false, gt := false, lt := false } =
      UpdateExpireResult.skipped ∧
    updateExpire 100000000 1000 (some 1200)
        { value := 500, unit := TimeUnit.msec, absolute := false, persist := false,
          nx := false, xx := false, gt := true, lt := false } =
      UpdateExpireResult.applied 1500 ∧
    updateExpire 100000000 1000 (some 1200)
        { value := -2000, unit := TimeUnit.msec, absolute := true, persist := false,
          nx := false, xx := false, gt := false, lt := false } =
      UpdateExpireResult.outOfRange :=
  ⟨(updateExpire_conditions 100000000 1000 (some 2000)
      { value := 500, unit := TimeUnit.msec, absolute := false, persist := false,
        nx := true, xx := false, gt := false, lt := false } rfl).2.2.1
      (by decide) (by decide) rfl 2000 rfl,
   ((updateExpire_conditions 100000000 1000 (some 1200)
      { value := 500, unit := TimeUnit.msec, absolute := false, persist := false,
        nx := false, xx := false, gt := true, lt := false } rfl).2.2.2.2.1
      (by decide) (by decide) rfl rfl rfl 1200 rfl).1.mpr (by decide),
   (updateExpire_conditions 100000000 1000 (some 1200)
      { value := -2000, unit := TimeUnit.msec, absolute := true, persist := false,
        nx := false, xx := false, gt := false, lt := false } rfl).1 (by decide)⟩

/-! ## C8 — sequential ordering of snapshot flushes

Embedding of the sequencing protocol of `SliceSnapshot::FlushSerialized`
(snapshot.cc:330-368) as a transition system.  A producer fiber first takes
`id = rec_id_++` and then waits on `seq_cond_` until
`id == last_pushed_id_ + 1` before handing its data to the consumer
(`ConsumeData`) and setting `last_pushed_id_ = id`.  The counters start at
`rec_id_ = 1`, `last_pushed_id_ = 0` (field initializers in snapshot.h,
which declares the members snapshot.cc uses).  `assign` models a fiber
executing `rec_id_++`; `push id` models a waiting fiber passing the
condition-variable predicate — it is enabled (`some`) exactly when the wait
predicate holds, which is the blocking behaviour of `seq_cond_.wait`.
`assignedLog` and `pushedLog` record the order of id assignments and of
hand-offs to the consumer. -/

structure FlushState where
  recId : Nat
  lastPushedId : Nat
  pending : List Nat
  assignedLog : List Nat
  pushedLog : List Nat
deriving DecidableEq, Repr

inductive FlushEvent where
  | assign
  | push (id : Nat)
deriving DecidableEq, Repr

def flushInit : FlushState :=
  { recId := 1, lastPushedId := 0, pending := [], assignedLog := [], pushedLog := [] }

def flushStep : FlushEvent → FlushState → Option FlushState
  | FlushEvent.assign, s =>
    some { s with recId := s.recId + 1, pending := s.pending ++ [s.recId],
                  assignedLog := s.assignedLog ++ [s.recId] }
  | FlushEvent.push id, s =>
    if id ∈ s.pending ∧ id = s.lastPushedId + 1 then
      some { s with pending := s.pending.erase id, lastPushedId := id,
                    pushedLog := s.pushedLog ++ [id] }
    else none

def runFlush (evs : List FlushEvent) : Option FlushState :=
  evs.foldlM (fun s e => flushStep e s) flushInit

/-- Inductive invariant for C8: ids are assigned as the consecutive sequence
1, 2, …, `recId - 1`, data is pushed in exactly the order 1, 2, …,
`lastPushedId`, and every in-flight flush holds an assigned id. -/
def flushInvariant (s : FlushState) : Prop :=
  s.pushedLog = List.range' 1 s.lastPushedId ∧
  s.assignedLog = List.range' 1 (s.recId - 1) ∧
  1 ≤ s.recId ∧
  s.lastPushedId < s.recId ∧
  ∀ id ∈ s.pending, id < s.recId

theorem flushInit_invariant : flushInvariant flushInit := by
  refine ⟨rfl, rfl, le_refl 1, Nat.zero_lt_one, ?_⟩
  intro id hid
  exact absurd hid (by simp [flushInit])

theorem flushStep_invariant (e : FlushEvent) (s s2 : FlushState)
    (h : flushStep e s = some s2) (hinv : flushInvariant s) : flushInvariant s2 := by
  obtain ⟨hpush, hassign, hrec, hlast, hpend⟩ := hinv
  cases e with
  | assign =>
    injection h with h
    subst h
    refine ⟨hpush, ?_, by show 1 ≤ s.recId + 1; omega,
      by show s.lastPushedId < s.recId + 1; omega, ?_⟩
    · show s.assignedLog ++ [s.recId] = List.range' 1 (s.recId + 1 - 1)
      rw [hassign]
      have h1 : s.recId + 1 - 1 = (s.recId - 1) + 1 := by omega
      rw [h1, List.range'_concat 1 (s.recId - 1)]
      have h3 : 1 + 1 * (s.recId - 1) = s.recId := by omega
      rw [h3]
    · intro id hid
      rcases List.mem_append.mp hid with h1 | h1
      · exact Nat.lt_succ_of_lt (hpend id h1)
      · rw [List.mem_singleton.mp h1]
        exact Nat.lt_succ_self _
  | push id =>
    have h2 : (if id ∈ s.pending ∧ id = s.lastPushedId + 1 then some { s with pending := s.pending.erase id, lastPushedId := id, pushedLog := s.pushedLog ++ [id] } else none) = some s2 := h
    by_cases hguard : id ∈ s.pending ∧ id = s.lastPushedId + 1
    · rw [if_pos hguard] at h2
      obtain ⟨hmem, hideq⟩ := hguard
      injection h2 with h2
      subst h2
      refine ⟨?_, hassign, hrec, ?_, ?_⟩
      · show s.pushedLog ++ [id] = List.range' 1 id
        rw [hpush, hideq]
        rw [List.range'_concat 1 s.lastPushedId]
        have h3 : 1 + 1 * s.lastPushedId = s.lastPushedId + 1 := by omega
        rw [h3]
      · show id < s.recId
        exact hpend id hmem
      · intro id2 hid2
        exact hpend id2 (List.mem_of_mem_erase hid2)
    · rw [if_neg hguard] at h2
      exact absurd h2 (by simp)

theorem runFlush_aux (evs : List FlushEvent) (s0 s : FlushState)
    (h : evs.foldlM (fun t e => flushStep e t) s0 = some s)
    (hinv : flushInvariant s0) : flushInvariant s := by
  induction evs generalizing s0 with
  | nil =>
    simp only [List.foldlM] at h
    injection h with h
    rw [← h]
    exact hinv
  | cons e evs ih =>
    rw [List.foldlM_cons] at h
    cases hstep : flushStep e s0 with
    | none => rw [hstep] at h; exact absurd h (by simp)
    | some s1 =>
      rw [hstep] at h
      exact ih s1 h (flushStep_invariant e s0 s1 hstep hinv)

/-- C8: in any interleaving of producer fibers, flush ids are assigned as
the consecutive increasing sequence 1, 2, …, `rec_id - 1`, and data is
handed to the consumer in exactly the order 1, 2, …, `last_pushed_id` — a
flush with id `i` pushes only after the flush with id `i-1` has pushed, and
only assigned ids are ever pushed. -/
theorem flushSerialized_sequential (evs : List FlushEvent) (s : FlushState)
    (h : runFlush evs = some s) :
    s.assignedLog = List.range' 1 (s.recId - 1) ∧
    s.pushedLog = List.range' 1 s.lastPushedId ∧
    s.lastPushedId ≤ s.recId - 1 := by
  obtain ⟨hpush, hassign, hrec, hlast, -⟩ := runFlush_aux evs flushInit s h flushInit_invariant
  exact ⟨hassign, hpush, by omega⟩

/-- Witness for C8: two fibers assign ids 1 and 2 and push in order. -/
theorem flushSerialized_sequential_witness :
    runFlush [FlushEvent.assign, FlushEvent.assign, FlushEvent.push 1, FlushEvent.push 2] =
      some { recId := 3, lastPushedId := 2, pending := [], assignedLog := [1, 2],
             pushedLog := [1, 2] } ∧
    ([1, 2] : List Nat) = List.range' 1 2 :=
  ⟨by decide,
    (flushSerialized_sequential
      [FlushEvent.assign, FlushEvent.assign, FlushEvent.push 1, FlushEvent.push 2]
      { recId := 3, lastPushedId := 2, pending := [], assignedLog := [1, 2],
        pushedLog := [1, 2] } (by decide)).2.1⟩

/-! ## C9 — `ChannelStore::FetchSubscribers`

Embedding of `ChannelStore::FetchSubscribers` (channel_store.cc:161-175) and
`ChannelStore::Fill` (channel_store.cc:177-186).  A `SubscribeMap` maps a
connection context (id) to its owning thread id; `channels_` and `patterns_`
map channel / pattern strings to subscribe maps.  Glob matching is done by
`GlobMatcher` (core/glob_matcher.cc, not under src/), abstracted as the
`matches` parameter; every theorem holds for any matcher.  `Fill` appends
one `Subscriber` per map entry, carrying the pattern that matched (empty for
the exact-channel lookup).  The result is sorted with `Subscriber::ByThread`
(strict comparison of thread ids under `std::sort`), which yields the
entries in non-decreasing thread order; we model the sort with `mergeSort`
on `thread ≤ thread`, which produces the same multiset in the same
non-decreasing order. -/

structure Subscriber where
  conn : Nat
  thread : Nat
  pattern : String
deriving DecidableEq, Repr

abbrev SubscribeMap := List (Nat × Nat)

abbrev ChannelMap := List (String × SubscribeMap)

/-- `ChannelStore::Fill`. -/
def fillSubs (src : SubscribeMap) (pattern : String) (out : List Subscriber) :
    List Subscriber :=
  out ++ src.map (fun ct => { conn := ct.1, thread := ct.2, pattern := pattern })

/-- `ChannelStore::FetchSubscribers`. -/
def fetchSubscribers (globMatches : String → String → Bool)
    (channels patterns : ChannelMap) (channel : String) : List Subscriber :=
  let res :=
    match alookup channel channels with
    | some subs => fillSubs subs "" []
    | none => []
  let res2 := patterns.foldl
    (fun acc ps => if globMatches ps.1 channel then fillSubs ps.2 ps.1 acc else acc) res
  res2.mergeSort (fun a b => decide (a.thread ≤ b.thread))

/-- The exact-match side of the union the claim describes. -/
def exactSubscribers (channels : ChannelMap) (channel : String) : List Subscriber :=
  match alookup channel channels with
  | some subs => subs.map (fun ct => { conn := ct.1, thread := ct.2, pattern := "" })
  | none => []

/-- The pattern side of the union: subscribers of every glob-matching
pattern. -/
def patternSubscribers (globMatches : String → String → Bool) (patterns : ChannelMap)
    (channel : String) : List Subscriber :=
  (patterns.filter (fun ps => globMatches ps.1 channel)).flatMap
    (fun ps => ps.2.map (fun ct => { conn := ct.1, thread := ct.2, pattern := ps.1 }))

theorem foldl_fillSubs (globMatches : String → String → Bool) (channel : String)
    (patterns : ChannelMap) (acc : List Subscriber) :
    patterns.foldl
        (fun acc ps => if globMatches ps.1 channel then fillSubs ps.2 ps.1 acc else acc) acc =
      acc ++ patternSubscribers globMatches patterns channel := by
  induction patterns generalizing acc with
  | nil => simp [patternSubscribers]
  | cons ps rest ih =>
    rw [List.foldl_cons]
    by_cases hm : globMatches ps.1 channel = true
    · rw [if_pos hm, ih]
      simp [patternSubscribers, fillSubs, List.filter_cons, hm, List.append_assoc]
    · rw [if_neg hm, ih]
      simp [patternSubscribers, List.filter_cons, hm]

/-- C9: the fetched list is a permutation of (exact-match subscribers) ++
(subscribers of every glob-matching pattern), and it is sorted by owning
thread id. -/
theorem fetchSubscribers_union_sorted (globMatches : String → String → Bool)
    (channels patterns : ChannelMap) (channel : String) :
    (fetchSubscribers globMatches channels patterns channel).Perm
        (exactSubscribers channels channel ++
          patternSubscribers globMatches patterns channel) ∧
    (fetchSubscribers globMatches channels patterns channel).Pairwise
        (fun a b => a.thread ≤ b.thread) := by
  have hbase : (match alookup channel channels with
      | some subs => fillSubs subs "" []
      | none => ([] : List Subscriber)) = exactSubscribers channels channel := by
    unfold exactSubscribers fillSubs
    cases alookup channel channels <;> simp
  constructor
  · unfold fetchSubscribers
    dsimp only
    rw [hbase, foldl_fillSubs]
    exact List.mergeSort_perm _ _
  · unfold fetchSubscribers
    have htrans : ∀ a b c : Subscriber, decide (a.thread ≤ b.thread) = true →
        decide (b.thread ≤ c.thread) = true → decide (a.thread ≤ c.thread) = true := by
      intro a b c hab hbc
      rw [decide_eq_true_iff] at hab hbc ⊢
      exact le_trans hab hbc
    have htotal : ∀ a b : Subscriber,
        (decide (a.thread ≤ b.thread) || decide (b.thread ≤ a.thread)) = true := by
      intro a b
      rcases Nat.le_total a.thread b.thread with h | h <;> simp [h]
    exact (List.sorted_mergeSort htrans htotal _).imp (fun h => decide_eq_true_iff.mp h)

/-- Witness for C9 at a concrete store: channel "news.sports" collects the
exact subscriber and the subscriber of the matching pattern, sorted by
thread id. -/
theorem fetchSubscribers_union_sorted_witness :
    (fetchSubscribers (fun p c => decide (p = "news.*" ∧ c = "news.sports"))
        [("news.sports", [(10, 5)])] [("news.*", [(20, 2)]), ("other.*", [(30, 1)])]
        "news.sports").Perm
      (exactSubscribers [("news.sports", [(10, 5)])] "news.sports" ++
        patternSubscribers (fun p c => decide (p = "news.*" ∧ c = "news.sports"))
          [("news.*", [(20, 2)]), ("other.*", [(30, 1)])] "news.sports") :=
  (fetchSubscribers_union_sorted (fun p c => decide (p = "news.*" ∧ c = "news.sports"))
    [("news.sports", [(10, 5)])] [("news.*", [(20, 2)]), ("other.*", [(30, 1)])]
    "news.sports").1

end Dragonfly
